import Mathlib

/-!
Verification development for the Slack-to-Sheets webhook bot (`api/index.py`).

The file shallowly embeds the program: `verify_slack_request` (HMAC-SHA256
request authentication), `parse_and_append` (regex-based charter-request
extraction), the sheet row construction of `append_to_sheet`, and the
`slack_events` Flask endpoint.  Python strings are Lean `String`s (byte
oriented operations work on their UTF-8 encoding), machine words in SHA-256
are `Nat` reduced mod 2^32, fallible paths are explicit constructors.
Character classes (`\s`, `\d`, `str.lower`, `str.strip`) are modelled at
ASCII scope, which covers every input considered in the theorems below;
Python additionally accepts some non-ASCII whitespace/digits there.
-/

/-- ASCII whitespace, as matched by Python's `\s`, `str.strip()` and
`str.split()` on ASCII text: space, tab, newline, carriage return,
vertical tab, form feed. -/
def pyWs (c : Char) : Bool :=
  c == ' ' || c == '\t' || c == '\n' || c == '\r' || c == '\u000B' || c == '\u000C'

/-- Python `str.lower()` (ASCII scope). -/
def lowerStr (s : String) : String := ⟨s.data.map Char.toLower⟩

/-- Strip ASCII whitespace from both ends of a character list
(Python `str.strip()` with no arguments, ASCII scope). -/
def stripL (l : List Char) : List Char :=
  ((l.dropWhile pyWs).reverse.dropWhile pyWs).reverse

/-- Python `str.strip()`. -/
def pyStrip (s : String) : String := ⟨stripL s.data⟩

/-- Python's substring containment `pat in s` on character lists. -/
def containsSub (s pat : List Char) : Bool :=
  if pat.isPrefixOf s then true
  else
    match s with
    | [] => false
    | _ :: t => containsSub t pat

/-- Helper for `pySplit`: split a character list on runs of whitespace,
discarding empty tokens, with explicit fuel (the list length suffices). -/
def pySplitAux : Nat → List Char → List String
  | 0, _ => []
  | fuel + 1, l =>
    match l.dropWhile pyWs with
    | [] => []
    | c :: rest =>
      ⟨c :: rest.takeWhile (fun x => !pyWs x)⟩ ::
        pySplitAux fuel (rest.dropWhile (fun x => !pyWs x))

/-- Python `str.split()` with no arguments: tokens separated by runs of
whitespace, no empty tokens. -/
def pySplit (s : String) : List String := pySplitAux s.data.length s.data

/-- UTF-8 encoding of a single character. -/
def utf8Char (c : Char) : List Nat :=
  let n := c.toNat
  if n < 0x80 then [n]
  else if n < 0x800 then [0xC0 ||| (n >>> 6), 0x80 ||| (n &&& 0x3F)]
  else if n < 0x10000 then
    [0xE0 ||| (n >>> 12), 0x80 ||| ((n >>> 6) &&& 0x3F), 0x80 ||| (n &&& 0x3F)]
  else
    [0xF0 ||| (n >>> 18), 0x80 ||| ((n >>> 12) &&& 0x3F),
     0x80 ||| ((n >>> 6) &&& 0x3F), 0x80 ||| (n &&& 0x3F)]

/-- UTF-8 encoding of a string as a list of byte values
(Python `str.encode('utf-8')`). -/
def utf8Bytes (s : String) : List Nat := (s.data.map utf8Char).flatten

/-- Digit-run parser for `pythonInt`: digits possibly separated by single
underscores (Python 3 integer literal grammar used by `int(str)`);
an underscore must be followed by a digit. -/
def pyIntDigits : List Char → Nat → Option Nat
  | [], acc => some acc
  | '_' :: c :: rest, acc =>
    if c.isDigit then pyIntDigits rest (acc * 10 + (c.toNat - 48)) else none
  | c :: rest, acc =>
    if c.isDigit then pyIntDigits rest (acc * 10 + (c.toNat - 48)) else none

/-- Python `int(str)` (ASCII scope): optional surrounding whitespace, an
optional sign, then at least one digit, with single underscores allowed
between digits.  `none` models a raised `ValueError`. -/
def pythonInt (s : String) : Option Int :=
  let t := stripL s.data
  match t with
  | '+' :: c :: rest =>
    if c.isDigit then (pyIntDigits rest (c.toNat - 48)).map Int.ofNat else none
  | '-' :: c :: rest =>
    if c.isDigit then (pyIntDigits rest (c.toNat - 48)).map (fun n => -(Int.ofNat n))
    else none
  | c :: rest =>
    if c.isDigit then (pyIntDigits rest (c.toNat - 48)).map Int.ofNat else none
  | [] => none

/-! ## SHA-256 and HMAC (`hashlib.sha256`, `hmac.new`) -/

/-- Right rotation of a 32-bit word. -/
def rotr32 (x n : Nat) : Nat := ((x >>> n) ||| (x <<< (32 - n))) % 4294967296

/-- The 64 round constants of SHA-256 (FIPS 180-4), in decimal. -/
def sha256K : List Nat :=
  [1116352408, 1899447441, 3049323471, 3921009573, 961987163,
   1508970993, 2453635748, 2870763221, 3624381080, 310598401,
   607225278, 1426881987, 1925078388, 2162078206, 2614888103,
   3248222580, 3835390401, 4022224774, 264347078, 604807628,
   770255983, 1249150122, 1555081692, 1996064986, 2554220882,
   2821834349, 2952996808, 3210313671, 3336571891, 3584528711,
   113926993, 338241895, 666307205, 773529912, 1294757372,
   1396182291, 1695183700, 1986661051, 2177026350, 2456956037,
   2730485921, 2820302411, 3259730800, 3345764771, 3516065817,
   3600352804, 4094571909, 275423344, 430227734, 506948616,
   659060556, 883997877, 958139571, 1322822218, 1537002063,
   1747873779, 1955562222, 2024104815, 2227730452, 2361852424,
   2428436474, 2756734187, 3204031479, 3329325298]

/-- The initial hash state of SHA-256, in decimal. -/
def sha256H0 : List Nat :=
  [1779033703, 3144134277, 1013904242, 2773480762,
   1359893119, 2600822924, 528734635, 1541459225]

def bigSigma0 (x : Nat) : Nat := rotr32 x 2 ^^^ rotr32 x 13 ^^^ rotr32 x 22
def bigSigma1 (x : Nat) : Nat := rotr32 x 6 ^^^ rotr32 x 11 ^^^ rotr32 x 25
def smallSigma0 (x : Nat) : Nat := rotr32 x 7 ^^^ rotr32 x 18 ^^^ (x >>> 3)
def smallSigma1 (x : Nat) : Nat := rotr32 x 17 ^^^ rotr32 x 19 ^^^ (x >>> 10)
def shaCh (x y z : Nat) : Nat := (x &&& y) ^^^ ((x ^^^ 0xffffffff) &&& z)
def shaMaj (x y z : Nat) : Nat := (x &&& y) ^^^ (x &&& z) ^^^ (y &&& z)

/-- Big-endian packing of bytes into 32-bit words. -/
def bytesToWords : List Nat → List Nat
  | b0 :: b1 :: b2 :: b3 :: rest =>
    (b0 * 16777216 + b1 * 65536 + b2 * 256 + b3) :: bytesToWords rest
  | _ => []

/-- Big-endian unpacking of 32-bit words into bytes. -/
def wordsToBytes (ws : List Nat) : List Nat :=
  (ws.map (fun w => [(w >>> 24) &&& 255, (w >>> 16) &&& 255,
                     (w >>> 8) &&& 255, w &&& 255])).flatten

/-- Message-schedule extension: append `k` more words to `w`. -/
def extendW : Nat → List Nat → List Nat
  | 0, w => w
  | k + 1, w =>
    let i := w.length
    extendW k (w ++ [(smallSigma1 (w.getD (i - 2) 0) + w.getD (i - 7) 0 +
                      smallSigma0 (w.getD (i - 15) 0) + w.getD (i - 16) 0) % 4294967296])

/-- One SHA-256 compression round step on the eight-word state. -/
def sha256Step (st : List Nat) (kw : Nat × Nat) : List Nat :=
  match st with
  | [a, b, c, d, e, f, g, h] =>
    let t1 := (h + bigSigma1 e + shaCh e f g + kw.1 + kw.2) % 4294967296
    let t2 := (bigSigma0 a + shaMaj a b c) % 4294967296
    [(t1 + t2) % 4294967296, a, b, c, (d + t1) % 4294967296, e, f, g]
  | other => other

/-- Compress one 64-byte block into the hash state. -/
def sha256Compress (h : List Nat) (block : List Nat) : List Nat :=
  let w := extendW 48 (bytesToWords block)
  let fin := (sha256K.zip w).foldl sha256Step h
  (h.zip fin).map (fun p => (p.1 + p.2) % 4294967296)

/-- SHA-256 padding: 0x80, zeros, then the 64-bit big-endian bit length. -/
def sha256Pad (msg : List Nat) : List Nat :=
  let len := msg.length
  let bitLen := len * 8
  let padZeros := (119 - len % 64) % 64
  msg ++ 128 :: List.replicate padZeros 0 ++
    [(bitLen >>> 56) &&& 255, (bitLen >>> 48) &&& 255, (bitLen >>> 40) &&& 255,
     (bitLen >>> 32) &&& 255, (bitLen >>> 24) &&& 255, (bitLen >>> 16) &&& 255,
     (bitLen >>> 8) &&& 255, bitLen &&& 255]

/-- Process the padded message 64 bytes at a time (fuel-driven; the padded
length is an upper bound on the number of blocks). -/
def sha256Blocks : Nat → List Nat → List Nat → List Nat
  | 0, h, _ => h
  | _ + 1, h, [] => h
  | fuel + 1, h, msg => sha256Blocks fuel (sha256Compress h (msg.take 64)) (msg.drop 64)

/-- SHA-256 of a byte list, as a 32-entry byte list. -/
def sha256 (msg : List Nat) : List Nat :=
  let padded := sha256Pad msg
  wordsToBytes (sha256Blocks padded.length sha256H0 padded)

/-- HMAC-SHA256 (`hmac.new(key, msg, hashlib.sha256).digest()`). -/
def hmacSha256 (key msg : List Nat) : List Nat :=
  let k1 := if key.length > 64 then sha256 key else key
  let k2 := k1 ++ List.replicate (64 - k1.length) 0
  sha256 ((k2.map (fun b => b ^^^ 0x5c)) ++ sha256 ((k2.map (fun b => b ^^^ 0x36)) ++ msg))

/-- Lowercase hexadecimal digit. -/
def hexChar (n : Nat) : Char := if n < 10 then Char.ofNat (48 + n) else Char.ofNat (87 + n)

/-- Lowercase hex string of a byte list (Python `.hexdigest()`). -/
def hexdigest (bytes : List Nat) : String :=
  ⟨(bytes.map (fun b => [hexChar (b / 16 % 16), hexChar (b % 16)])).flatten⟩

/-! ## Signature verification (`verify_slack_request`) -/

/-- Python truthiness of an optional string: `None` and `""` are falsy.
Models `not SLACK_SIGNING_SECRET`, `not timestamp`, `not signature`. -/
def pyFalsyStrOpt (o : Option String) : Bool :=
  match o with
  | none => true
  | some s => s == ""

/-- The signature Slack computes: `'v0=' + hex(HMAC-SHA256(secret, "v0:{ts}:{body}"))`. -/
def correctSig (secret ts body : String) : String :=
  "v0=" ++ hexdigest (hmacSha256 (utf8Bytes secret) (utf8Bytes ("v0:" ++ ts ++ ":" ++ body)))

/-- Embeds `verify_slack_request(request_body, timestamp, signature)` from
`api/index.py`, with the module-global `SLACK_SIGNING_SECRET` and the call to
`time.time()` made explicit parameters (`secret`, `now`).  The
`hmac.compare_digest` call is equality of the two strings. -/
def verify_slack_request (request_body : String) (timestamp signature : Option String)
    (secret : Option String) (now : Int) : Bool :=
  if pyFalsyStrOpt secret || pyFalsyStrOpt timestamp || pyFalsyStrOpt signature then
    false
  else
    match pythonInt (timestamp.getD "") with
    | none => false
    | some req_timestamp =>
      if 60 * 5 < (now - req_timestamp).natAbs then false
      else
        let basestring := "v0:" ++ timestamp.getD "" ++ ":" ++ request_body
        let my_signature :=
          "v0=" ++ hexdigest (hmacSha256 (utf8Bytes (secret.getD "")) (utf8Bytes basestring))
        my_signature == signature.getD ""

/-! ## A small backtracking regex engine

Exactly the constructs used by the five extraction patterns and the
`re.sub` rewrite in `parse_and_append`: single characters from a class,
sequencing, a greedy optional, greedy star/plus over a class, a lazy star
over a class, and one capturing group per pattern.  The continuation-passing
matcher reproduces the leftmost, greedy-with-backtracking semantics of
Python's `re` for these constructs.  A match answer is
`(group-1 capture, remaining suffix)`.
-/

inductive Re where
  | eps : Re
  | cls (p : Char → Bool) : Re
  | seq (a b : Re) : Re
  | opt (a : Re) : Re
  | starG (p : Char → Bool) : Re
  | plusG (p : Char → Bool) : Re
  | starL (p : Char → Bool) : Re
  | grp (a : Re) : Re

abbrev MAns := Option (List Char × List Char)
abbrev MK := List Char → MAns

/-- Greedy star backtracking: try the continuation after consuming `n`
characters, then `n - 1`, ..., down to `0`. -/
def tryStarG (k : MK) (s : List Char) : Nat → MAns
  | 0 => k (s.drop 0)
  | n + 1 =>
    match k (s.drop (n + 1)) with
    | some r => some r
    | none => tryStarG k s n

/-- Greedy plus backtracking: like `tryStarG` but at least one character. -/
def tryPlusG (k : MK) (s : List Char) : Nat → MAns
  | 0 => none
  | n + 1 =>
    match k (s.drop (n + 1)) with
    | some r => some r
    | none => tryPlusG k s n

/-- Lazy star: try the continuation after consuming `i` characters, then
`i + 1`, ..., up to `i + rem`. -/
def tryUp (k : MK) (s : List Char) : Nat → Nat → MAns
  | i, 0 => k (s.drop i)
  | i, rem + 1 =>
    match k (s.drop i) with
    | some r => some r
    | none => tryUp k s (i + 1) rem

/-- The backtracking matcher.  `mtch r s k` matches `r` at the start of `s`
and calls `k` on the remaining suffix; a `grp` node overwrites the capture
component of the answer with the characters it consumed. -/
def mtch : Re → List Char → MK → MAns
  | .eps, s, k => k s
  | .cls p, s, k =>
    match s with
    | [] => none
    | c :: rest => if p c then k rest else none
  | .seq a b, s, k => mtch a s (fun rest => mtch b rest k)
  | .opt a, s, k =>
    match mtch a s k with
    | some r => some r
    | none => k s
  | .starG p, s, k => tryStarG k s (s.takeWhile p).length
  | .plusG p, s, k => tryPlusG k s (s.takeWhile p).length
  | .starL p, s, k => tryUp k s 0 (s.takeWhile p).length
  | .grp a, s, k =>
    mtch a s (fun rest => (k rest).map (fun pr => (s.take (s.length - rest.length), pr.2)))

/-- Top-level continuation: accept, with an empty capture placeholder. -/
def mK0 : MK := fun rest => some ([], rest)

/-- `re.search` semantics: try a match at every start position, leftmost
first; answer is the group-1 capture paired with the suffix after the match. -/
def searchAux (r : Re) : List Char → MAns
  | [] => mtch r [] mK0
  | c :: t =>
    match mtch r (c :: t) mK0 with
    | some pr => some pr
    | none => searchAux r t

/-- `re.search(pattern, text, re.IGNORECASE).group(1)` for the patterns
below (each has exactly one group), `none` when there is no match. -/
def reSearch (r : Re) (s : String) : Option String :=
  (searchAux r s.data).map (fun pr => ⟨pr.1⟩)

/-- Case-insensitive literal (`re.IGNORECASE` at ASCII scope). -/
def litCI (lit : String) : Re :=
  lit.data.foldr (fun c r => .seq (.cls (fun x => x.toLower == c.toLower)) r) .eps

/-- Case-sensitive literal over a character list. -/
def litL (w : List Char) : Re :=
  w.foldr (fun c r => .seq (.cls (fun x => x == c)) r) .eps

/-- Case-sensitive literal. -/
def litEx (lit : String) : Re := litL lit.data

/-- The `\*?` that opens every field pattern. -/
def optStar : Re := .opt (.cls (fun c => c == '*'))

def nonDigit (c : Char) : Bool := !c.isDigit
def nonNewline (c : Char) : Bool := !(c == '\n')
def phoneChar (c : Char) : Bool :=
  c.isDigit || pyWs c || c == '+' || c == '(' || c == ')' || c == '-'
def dateChar (c : Char) : Bool := c.isDigit || c == '-'

/-- Label part of `r"\*?Charter\s*Id\*?[^\d]*(\d+)"` (everything before the group). -/
def charterIdPre : Re :=
  .seq optStar (.seq (litCI "Charter") (.seq (.starG pyWs)
    (.seq (litCI "Id") (.seq optStar (.starG nonDigit)))))

def charterIdRe : Re := .seq charterIdPre (.grp (.plusG Char.isDigit))

/-- Label part of `r"\*?Name\*?\s*:\s*([^\n]+)"`. -/
def namePre : Re :=
  .seq optStar (.seq (litCI "Name") (.seq optStar (.seq (.starG pyWs)
    (.seq (.cls (fun c => c == ':')) (.starG pyWs)))))

def nameRe : Re := .seq namePre (.grp (.plusG nonNewline))

/-- Label part of `r"\*?Phone\*?[^\d]*([0-9\s+()-]+)"`. -/
def phonePre : Re :=
  .seq optStar (.seq (litCI "Phone") (.seq optStar (.starG nonDigit)))

def phoneRe : Re := .seq phonePre (.grp (.plusG phoneChar))

/-- Label part of `r"\*?Pick\s*up\s*date\*?[^\d]*([\d-]+)"`. -/
def pickUpPre : Re :=
  .seq optStar (.seq (litCI "Pick") (.seq (.starG pyWs) (.seq (litCI "up")
    (.seq (.starG pyWs) (.seq (litCI "date") (.seq optStar (.starG nonDigit)))))))

def pickUpRe : Re := .seq pickUpPre (.grp (.plusG dateChar))

/-- Label part of `r"\*?Return\s*date\*?[^\d]*([\d-]+)"`. -/
def returnPre : Re :=
  .seq optStar (.seq (litCI "Return") (.seq (.starG pyWs)
    (.seq (litCI "date") (.seq optStar (.starG nonDigit)))))

def returnRe : Re := .seq returnPre (.grp (.plusG dateChar))

/-- Part of the rewrite pattern after the `<mailto:` literal:
`.*\|(.*?)>` where `.` is any character except newline. -/
def mailtoTail : Re :=
  .seq (.starG nonNewline)
    (.seq (.cls (fun c => c == '|')) (.seq (.grp (.starL nonNewline))
      (.cls (fun c => c == '>'))))

/-- The rewrite pattern `r'<mailto:.*\|(.*?)>'` (no IGNORECASE flag). -/
def mailtoRe : Re := .seq (litEx "<mailto:") mailtoTail

/-- A full link annotation `<mailto:ꞏtargetꞏ|ꞏdisplayꞏ>` minus its
`<mailto:` opening: the target, the pipe, the display text, and `>`. -/
def mailtoBody (t d : List Char) : List Char := t ++ '|' :: (d ++ ['>'])

/-- `re.sub(mailtoRe, group 1, s)`: replace every leftmost non-overlapping
match by its capture.  Fuel-driven; every match consumes at least one
character, so the list length suffices. -/
def subMailtoAux : Nat → List Char → List Char
  | 0, s => s
  | _ + 1, [] => []
  | fuel + 1, c :: tail =>
    match mtch mailtoRe (c :: tail) mK0 with
    | some (cap, rest) => cap ++ subMailtoAux fuel rest
    | none => c :: subMailtoAux fuel tail

/-- The processing `parse_and_append` applies to the matched name value:
`value = match.group(1).strip()` then
`value = re.sub(r'<mailto:.*\|(.*?)>', r'\1', value)`. -/
def processNameL (l : List Char) : List Char :=
  let v := stripL l
  subMailtoAux v.length v

def processName (s : String) : String := ⟨processNameL s.data⟩

/-! ## The extractor (`parse_and_append`) and the sheet row (`append_to_sheet`) -/

/-- The fields `parse_and_append` collects into its `data` dict (the
`request_received_date` wall-clock field is supplied separately when the
sheet row is built, see `sheetRow`). -/
structure CharterData where
  charter_id : String
  name : String
  phone : String
  pick_up_date : String
  return_date : String
  first_name : String
  last_name : String
deriving DecidableEq, Repr

/-- Outcome of one `parse_and_append` run: the message was discarded by an
early `return` (`dropped`), the thread died with an uncaught exception
(`crashed` — the `name_parts[0]` IndexError), or a record was assembled and
handed to `append_to_sheet` (`parsed`). -/
inductive ParseResult where
  | dropped : ParseResult
  | crashed : ParseResult
  | parsed (d : CharterData) : ParseResult
deriving DecidableEq, Repr

/-- Embeds `parse_and_append(message_text)` from `api/index.py` up to the
hand-off to `append_to_sheet` (the Google Sheets write is an external
effect; `parsed d` records exactly the data it would receive). -/
def parse_and_append (message_text : String) : ParseResult :=
  if !containsSub (lowerStr message_text).data "charter request".data then .dropped
  else
    match reSearch charterIdRe message_text with
    | none => .dropped
    | some cid0 =>
      match reSearch nameRe message_text with
      | none => .dropped
      | some name0 =>
        match reSearch phoneRe message_text with
        | none => .dropped
        | some phone0 =>
          match reSearch pickUpRe message_text with
          | none => .dropped
          | some pick0 =>
            let charter_id := pyStrip cid0
            let name := processName name0
            let phone := pyStrip phone0
            let pick_up_date := pyStrip pick0
            let return_date :=
              match reSearch returnRe message_text with
              | some r0 => pyStrip r0
              | none => ""
            if name == "" then
              .parsed { charter_id, name, phone, pick_up_date, return_date,
                        first_name := "", last_name := "" }
            else
              match pySplit name with
              | [] => .crashed
              | p :: ps =>
                .parsed { charter_id, name, phone, pick_up_date, return_date,
                          first_name := p,
                          last_name := match ps.getLast? with
                                        | some z => z
                                        | none => "" }

/-- The fixed 7-column row `append_to_sheet` builds from the data dict;
`nowStr` is the `request_received_date` timestamp string. -/
def sheetRow (d : CharterData) (nowStr : String) : List String :=
  [nowStr, d.charter_id, d.first_name, d.last_name, d.phone, d.pick_up_date, d.return_date]

/-- The row handed to the external sheet sink for a given extraction
outcome: only a successful parse dispatches a row. -/
def dispatchedRow : ParseResult → String → Option (List String)
  | .parsed d, nowStr => some (sheetRow d nowStr)
  | _, _ => none

/-! ## JSON (`json.loads`) and the Flask endpoint (`slack_events`) -/

/-- JSON values as produced by `json.loads`.  Numbers are restricted to
integers (no float in any payload considered here); `\uXXXX` string escapes
are not modelled. -/
inductive Json where
  | null : Json
  | bool (b : Bool) : Json
  | num (n : Int) : Json
  | str (s : String) : Json
  | arr (xs : List Json) : Json
  | obj (kvs : List (String × Json)) : Json

def jsonWs (c : Char) : Bool := c == ' ' || c == '\t' || c == '\n' || c == '\r'

/-- Single-character string escapes of JSON. -/
def jsonEscape (c : Char) : Option Char :=
  match c with
  | '"' => some '"'
  | '\\' => some '\\'
  | '/' => some '/'
  | 'n' => some '\n'
  | 't' => some '\t'
  | 'r' => some '\r'
  | 'b' => some '\u0008'
  | 'f' => some '\u000C'
  | _ => none

/-- Parse the body of a JSON string (opening quote already consumed). -/
def parseJStr : List Char → Option (List Char × List Char)
  | [] => none
  | '"' :: rest => some ([], rest)
  | '\\' :: e :: rest =>
    match jsonEscape e with
    | some c => (parseJStr rest).map (fun pr => (c :: pr.1, pr.2))
    | none => none
  | '\\' :: [] => none
  | c :: rest => (parseJStr rest).map (fun pr => (c :: pr.1, pr.2))

/-- Parse a JSON integer after the optional sign; rejects fraction/exponent
(floats are outside the model). -/
def parseJNat : List Char → Option (Nat × List Char)
  | s =>
    let digits := s.takeWhile Char.isDigit
    let rest := s.dropWhile Char.isDigit
    if digits.isEmpty then none
    else
      match rest with
      | '.' :: _ => none
      | 'e' :: _ => none
      | 'E' :: _ => none
      | _ => some (digits.foldl (fun a c => a * 10 + (c.toNat - 48)) 0, rest)

mutual

/-- Recursive-descent JSON value parser, fuel-driven (the fuel passed by
`jsonLoads` is an upper bound on the recursion depth). -/
def parseJ : Nat → List Char → Option (Json × List Char)
  | 0, _ => none
  | fuel + 1, s =>
    match s.dropWhile jsonWs with
    | [] => none
    | c :: rest =>
      if c == '{' then
        match rest.dropWhile jsonWs with
        | '}' :: r2 => some (.obj [], r2)
        | _ => (parseJObj fuel rest).map (fun pr => (Json.obj pr.1, pr.2))
      else if c == '[' then
        match rest.dropWhile jsonWs with
        | ']' :: r2 => some (.arr [], r2)
        | _ => (parseJArr fuel rest).map (fun pr => (Json.arr pr.1, pr.2))
      else if c == '"' then
        (parseJStr rest).map (fun pr => (Json.str ⟨pr.1⟩, pr.2))
      else if c == '-' then
        (parseJNat rest).map (fun pr => (Json.num (-(Int.ofNat pr.1)), pr.2))
      else if c.isDigit then
        (parseJNat (c :: rest)).map (fun pr => (Json.num (Int.ofNat pr.1), pr.2))
      else if c == 't' then
        match c :: rest with
        | 't' :: 'r' :: 'u' :: 'e' :: r2 => some (.bool true, r2)
        | _ => none
      else if c == 'f' then
        match c :: rest with
        | 'f' :: 'a' :: 'l' :: 's' :: 'e' :: r2 => some (.bool false, r2)
        | _ => none
      else if c == 'n' then
        match c :: rest with
        | 'n' :: 'u' :: 'l' :: 'l' :: r2 => some (.null, r2)
        | _ => none
      else none

/-- Members of a JSON object after `{` (at least one member). -/
def parseJObj : Nat → List Char → Option (List (String × Json) × List Char)
  | 0, _ => none
  | fuel + 1, s =>
    match s.dropWhile jsonWs with
    | '"' :: rest =>
      match parseJStr rest with
      | none => none
      | some (key, r2) =>
        match r2.dropWhile jsonWs with
        | ':' :: r3 =>
          match parseJ fuel r3 with
          | none => none
          | some (v, r4) =>
            match r4.dropWhile jsonWs with
            | ',' :: r5 =>
              (parseJObj fuel r5).map (fun pr => ((⟨key⟩, v) :: pr.1, pr.2))
            | '}' :: r5 => some ([(⟨key⟩, v)], r5)
            | _ => none
        | _ => none
    | _ => none

/-- Elements of a JSON array after `[` (at least one element). -/
def parseJArr : Nat → List Char → Option (List Json × List Char)
  | 0, _ => none
  | fuel + 1, s =>
    match parseJ fuel s with
    | none => none
    | some (v, r2) =>
      match r2.dropWhile jsonWs with
      | ',' :: r3 => (parseJArr fuel r3).map (fun pr => (v :: pr.1, pr.2))
      | ']' :: r3 => some (v :: [], r3)
      | _ => none

end

/-- `json.loads(s)`: parse a complete JSON document; `none` models a raised
`json.JSONDecodeError`. -/
def jsonLoads (s : String) : Option Json :=
  match parseJ (2 * s.data.length + 4) s.data with
  | some (j, rest) => if (rest.dropWhile jsonWs).isEmpty then some j else none
  | none => none

/-- Python `dict` lookup for an object literal: on duplicate keys the last
binding wins, as in a dict built by `json.loads`. -/
def dictGet (kvs : List (String × Json)) (k : String) : Option Json :=
  match kvs with
  | [] => none
  | (k', v) :: rest =>
    match dictGet rest k with
    | some r => some r
    | none => if k' == k then some v else none

/-- Python `x == "lit"` where `x` came from `dict.get`: only a string JSON
value equal to the literal compares true. -/
def jeqStr (v : Option Json) (s : String) : Bool :=
  match v with
  | some (.str t) => t == s
  | _ => false

/-- Python truthiness of a `dict.get` result (`not event.get("bot_id")`):
absent key (`None`), `null`, `False`, `0`, `""`, `[]` and `{}` are falsy. -/
def pyTruthyJ (v : Option Json) : Bool :=
  match v with
  | none => false
  | some .null => false
  | some (.bool b) => b
  | some (.num n) => !(n == 0)
  | some (.str s) => !(s == "")
  | some (.arr xs) => !xs.isEmpty
  | some (.obj kvs) => !kvs.isEmpty

/-- HTTP-level outcome of one request to the endpoint.  `response` carries
the status, the body, the explicit `Content-Type` header when one is set,
and the `text` argument handed to the background `parse_and_append` thread
(`none` when no thread is started).  `error` models an uncaught exception
propagating out of the handler (HTTP 500 at the WSGI layer). -/
inductive HandlerOutcome where
  | response (status : Nat) (body : String) (contentType : Option String)
      (spawned : Option Json) : HandlerOutcome
  | error (msg : String) : HandlerOutcome

/-- Embeds the `slack_events` Flask view of `api/index.py`.  The request
method, the two Slack headers, the raw body, the signing secret and the
clock are explicit parameters.  A spawned background thread is recorded by
its `event.get("text", "")` argument; the thread itself runs
`parse_and_append` asynchronously after the response is returned. -/
def slack_events (method : String) (signature timestamp : Option String)
    (request_body : String) (secret : Option String) (now : Int) : HandlerOutcome :=
  if method == "GET" then
    .response 200 "Bot is alive and listening for POST requests from Slack." none none
  else if method == "POST" then
    if verify_slack_request request_body timestamp signature secret now then
      match jsonLoads request_body with
      | none => .error "json.loads raised JSONDecodeError"
      | some (.obj kvs) =>
        if jeqStr (dictGet kvs "type") "url_verification" then
          match dictGet kvs "challenge" with
          | some (.str c) => .response 200 c (some "text/plain") none
          | _ => .error "make_response on a non-string challenge"
        else if jeqStr (dictGet kvs "type") "event_callback" then
          match (dictGet kvs "event").getD (.obj []) with
          | .obj ev =>
            if jeqStr (dictGet ev "type") "message" && !pyTruthyJ (dictGet ev "bot_id")
            then .response 200 "" none (some ((dictGet ev "text").getD (.str "")))
            else .response 200 "" none none
          | _ => .error "AttributeError: .get on a non-dict event"
        else
          .response 200 "" none none
      | some _ => .error "AttributeError: .get on a non-dict body"
    else
      .response 403 "Invalid request" none none
  else
    .response 404 "Not Found" none none

/-- Syntactic predicate: does a pattern contain a capturing group? -/
def hasGrp : Re → Bool
  | .eps => false
  | .cls _ => false
  | .starG _ => false
  | .plusG _ => false
  | .starL _ => false
  | .seq a b => hasGrp a || hasGrp b
  | .opt a => hasGrp a
  | .grp _ => true

/-! ## Concrete fixtures used in the theorems -/

def c4raw : String := "\x7b\"type\": \"url_verification\", \"challenge\": \"abc123\"\x7d"

def c6text : String :=
  "Charter request!\nCharter Id: 1234\nName: Jane Doe\nPhone: 555-1234\nPick up date: 2024-05-01"

def c10text : String :=
  "Charter request\nCharter Id: 9\nName: <mailto:a| >\nPhone: 555\nPick up date: 2024-05-01"

def c7httpText : String :=
  "Charter request\nCharter Id: 7\nName: <http://a.com|John Smith>\nPhone: 555\nPick up date: 2024-05-01"

def c7mailtoText : String :=
  "Charter request\nCharter Id: 7\nName: <mailto:a@b.com|John Smith>\nPhone: 555\nPick up date: 2024-05-01"

def c9text : String :=
  "charter request\nCharter Id: 0042\nName: Ann Lee\nPhone: 555\nPick up date: 1-1"

/-! ## Sanity checks on the Python-primitive models -/

example : pythonInt "100" = some 100 := rfl
example : pythonInt " -1_0 " = some (-10) := rfl
example : pythonInt "" = none := rfl
example : pythonInt "1_" = none := rfl
example : pySplit "  Jane  Doe " = ["Jane", "Doe"] := rfl
example : pyStrip " a b " = "a b" := rfl
example : containsSub (lowerStr "A Charter REQUest!").data "charter request".data = true := rfl

/-! ## Theorems: signature verification (claims C1, C2) -/

theorem pythonInt_empty : pythonInt "" = none := rfl

theorem correctSig_ne_empty (S T B : String) : correctSig S T B ≠ "" := by
  intro h
  have h2 : 'v' :: '0' :: '=' ::
      (hexdigest (hmacSha256 (utf8Bytes S) (utf8Bytes ("v0:" ++ T ++ ":" ++ B)))).data =
      ([] : List Char) := congrArg String.data h
  exact absurd h2 (by simp)

/-- Helper: with a non-empty secret, a parseable fresh timestamp, and the
supplied signature exactly `correctSig`, verification succeeds. -/
theorem verify_true_of_correct (B S T : String) (now t : Int)
    (hS : S ≠ "") (hT : pythonInt T = some t) (hfresh : (now - t).natAbs ≤ 300) :
    verify_slack_request B (some T) (some (correctSig S T B)) (some S) now = true := by
  have hT0 : (T == "") = false := by
    apply beq_eq_false_iff_ne.mpr
    intro h
    rw [h, pythonInt_empty] at hT
    exact Option.noConfusion hT
  have hS0 : (S == "") = false := beq_eq_false_iff_ne.mpr hS
  have hsig0 : (correctSig S T B == "") = false :=
    beq_eq_false_iff_ne.mpr (correctSig_ne_empty S T B)
  unfold verify_slack_request
  simp only [pyFalsyStrOpt, hS0, hT0, hsig0, Bool.or_self, Bool.or_false,
    Bool.false_or, Option.getD_some, hT]
  rw [if_neg (by simp), if_neg (by omega)]
  unfold correctSig
  exact beq_self_eq_true _

/-- Helper: whatever else holds, a supplied signature different from
`correctSig` is rejected. -/
theorem verify_false_of_wrong_sig (B S T sig : String) (now : Int)
    (hsig : sig ≠ correctSig S T B) :
    verify_slack_request B (some T) (some sig) (some S) now = false := by
  unfold verify_slack_request
  by_cases hOr : (pyFalsyStrOpt (some S) || pyFalsyStrOpt (some T) || pyFalsyStrOpt (some sig)) = true
  · rw [if_pos hOr]
  · rw [if_neg hOr]
    simp only [Option.getD_some]
    cases hp : pythonInt T with
    | none => simp only [hp]
    | some t =>
      simp only [hp]
      by_cases hstale : 60 * 5 < (now - t).natAbs
      · rw [if_pos hstale]
      · rw [if_neg hstale]
        apply beq_eq_false_iff_ne.mpr
        intro h
        exact hsig h.symm

/-- Helper: a request whose recomputed signature string differs from the
supplied one is rejected, whatever the timestamp situation. -/
theorem verify_false_of_digest_ne (B' S T' : String) (sig : String) (now : Int)
    (hne : "v0=" ++ hexdigest (hmacSha256 (utf8Bytes S) (utf8Bytes ("v0:" ++ T' ++ ":" ++ B'))) ≠ sig) :
    verify_slack_request B' (some T') (some sig) (some S) now = false := by
  unfold verify_slack_request
  by_cases hOr : (pyFalsyStrOpt (some S) || pyFalsyStrOpt (some T') || pyFalsyStrOpt (some sig)) = true
  · rw [if_pos hOr]
  · rw [if_neg hOr]
    simp only [Option.getD_some]
    cases hp : pythonInt T' with
    | none => simp only [hp]
    | some t =>
      simp only [hp]
      by_cases hstale : 60 * 5 < (now - t).natAbs
      · rw [if_pos hstale]
      · rw [if_neg hstale]
        exact beq_eq_false_iff_ne.mpr hne

/-- Claim C1 counterexample: with the empty-string secret, a fresh timestamp
and the signature computed exactly as the claim prescribes, the verifier
still returns `false` (the `not SLACK_SIGNING_SECRET` guard fires), so the
claim's positive half fails for the secret `""`. -/
theorem c1_counterexample :
    verify_slack_request "x" (some "100") (some (correctSig "" "100" "x")) (some "") 100
      = false := by
  set_option maxRecDepth 8192 in rfl

/-- Claim C1 (amended): for every body `B`, non-empty secret `S` and
timestamp string `T` parsing to a value within 300 seconds of `now`:
(1) the verifier accepts the signature
`"v0=" ++ hex(HMAC-SHA256(S, "v0:" ++ T ++ ":" ++ B))`;
(2) any supplied signature different from it — in particular any
single-bit change of it — is rejected;
(3) replacing `B`/`T` by any `B'`/`T'` — in particular flipping any single
bit — is rejected whenever the recomputed HMAC hex digest differs from the
original one (the unconditional form of this clause is second-preimage
resistance of HMAC-SHA256 and is not provable). -/
theorem c1_amended :
    (∀ (B S T : String) (now t : Int), S ≠ "" → pythonInt T = some t →
      (now - t).natAbs ≤ 300 →
      verify_slack_request B (some T) (some (correctSig S T B)) (some S) now = true)
    ∧ (∀ (B S T sig : String) (now : Int), sig ≠ correctSig S T B →
      verify_slack_request B (some T) (some sig) (some S) now = false)
    ∧ (∀ (B B' S T T' : String) (now : Int),
      hexdigest (hmacSha256 (utf8Bytes S) (utf8Bytes ("v0:" ++ T' ++ ":" ++ B'))) ≠
        hexdigest (hmacSha256 (utf8Bytes S) (utf8Bytes ("v0:" ++ T ++ ":" ++ B))) →
      verify_slack_request B' (some T') (some (correctSig S T B)) (some S) now = false) := by
  refine ⟨verify_true_of_correct, verify_false_of_wrong_sig, ?_⟩
  intro B B' S T T' now hne
  apply verify_false_of_digest_ne
  intro h
  have hdata : ("v0=" ++ hexdigest (hmacSha256 (utf8Bytes S) (utf8Bytes ("v0:" ++ T' ++ ":" ++ B')))).data =
      ("v0=" ++ hexdigest (hmacSha256 (utf8Bytes S) (utf8Bytes ("v0:" ++ T ++ ":" ++ B)))).data :=
    congrArg String.data h
  exact hne (String.ext (List.append_cancel_left hdata))

theorem c1_amended_witness :
    verify_slack_request "x" (some "100") (some (correctSig "s" "100" "x")) (some "s") 100 = true
    ∧ verify_slack_request "x" (some "100") (some "wrong") (some "s") 100 = false := by
  constructor
  · exact c1_amended.1 "x" "s" "100" 100 100 (by decide)
      (by set_option maxRecDepth 8192 in rfl) (by decide)
  · exact c1_amended.2.1 "x" "s" "100" "wrong" 100 (by
      intro h
      have h3 : 'w' = 'v' := congrArg (fun s => s.data.headD ' ') h
      exact absurd h3 (by decide))

/-- Claim C2: whenever the supplied timestamp parses to a value more than
300 seconds from the current time, verification fails — for every body,
secret and signature, including the correct signature.  The bound is the
hard-coded literal `60 * 5` of the source. -/
theorem c2_stale_timestamp_rejected (body T : String) (sig secret : Option String)
    (now t : Int) (hp : pythonInt T = some t) (hstale : 300 < (now - t).natAbs) :
    verify_slack_request body (some T) sig secret now = false := by
  unfold verify_slack_request
  by_cases hOr : (pyFalsyStrOpt secret || pyFalsyStrOpt (some T) || pyFalsyStrOpt sig) = true
  · rw [if_pos hOr]
  · rw [if_neg hOr]
    simp only [Option.getD_some, hp]
    rw [if_pos (by omega)]

theorem c2_witness :
    verify_slack_request "b" (some "1000")
      (some (correctSig "s" "1000" "b")) (some "s") 2000 = false :=
  c2_stale_timestamp_rejected "b" "1000" (some (correctSig "s" "1000" "b")) (some "s")
    2000 1000 (by set_option maxRecDepth 8192 in rfl) (by decide)

/-! ## Theorems: the HTTP endpoint (claims C3, C4) -/

/-- Claim C3: every POST whose signature fails verification gets status 403
with body "Invalid request", and no background processing is started
(`spawned = none`), so neither the extractor `parse_and_append` nor the
sink `append_to_sheet` can run for that request, whatever the body. -/
theorem c3_invalid_signature_403 (sig ts : Option String) (raw : String)
    (secret : Option String) (now : Int)
    (hv : verify_slack_request raw ts sig secret now = false) :
    slack_events "POST" sig ts raw secret now =
      .response 403 "Invalid request" none none := by
  unfold slack_events
  rw [if_neg (by decide), if_pos (by decide), hv]
  simp

theorem c3_witness :
    slack_events "POST" (some "x") (some "1") "\x7b\x7d" none 0 =
      .response 403 "Invalid request" none none :=
  c3_invalid_signature_403 (some "x") (some "1") "\x7b\x7d" none 0 rfl

/-- Claim C4: every POST that passes verification and whose JSON body is an
object with `type == "url_verification"` and a string `challenge` is
answered 200 with the challenge echoed verbatim as a `text/plain` body,
and no background processing is started. -/
theorem c4_url_verification_echo (sig ts : Option String) (raw : String)
    (secret : Option String) (now : Int) (kvs : List (String × Json)) (c : String)
    (hv : verify_slack_request raw ts sig secret now = true)
    (hj : jsonLoads raw = some (.obj kvs))
    (hty : dictGet kvs "type" = some (.str "url_verification"))
    (hch : dictGet kvs "challenge" = some (.str c)) :
    slack_events "POST" sig ts raw secret now =
      .response 200 c (some "text/plain") none := by
  unfold slack_events
  rw [if_neg (by decide), if_pos (by decide), hv]
  simp only [if_true]
  simp only [hj]
  simp only [hty, hch, jeqStr, beq_self_eq_true, if_true]

theorem c4_witness :
    slack_events "POST" (some (correctSig "s" "100" c4raw)) (some "100") c4raw (some "s") 100 =
      .response 200 "abc123" (some "text/plain") none :=
  c4_url_verification_echo (some (correctSig "s" "100" c4raw)) (some "100") c4raw
    (some "s") 100
    [("type", .str "url_verification"), ("challenge", .str "abc123")] "abc123"
    (verify_true_of_correct c4raw "s" "100" 100 100 (by decide)
      (by set_option maxRecDepth 8192 in rfl) (by decide))
    (by set_option maxRecDepth 100000 in rfl)
    rfl rfl

/-! ## Theorems: the extractor (claims C5 to C10) -/

/-- Claim C8: a text without the case-insensitive substring
"charter request" is dropped by the pre-filter — the definition of
`parse_and_append` returns before any field pattern is consulted — and no
row reaches the sink. -/
theorem c8_prefilter_rejects (text nowStr : String)
    (h : containsSub (lowerStr text).data "charter request".data = false) :
    parse_and_append text = .dropped
    ∧ dispatchedRow (parse_and_append text) nowStr = none := by
  have hp : parse_and_append text = .dropped := by
    unfold parse_and_append
    rw [h]
    rfl
  exact ⟨hp, by rw [hp]; rfl⟩

theorem c8_witness :
    parse_and_append "hello world" = .dropped
    ∧ dispatchedRow (parse_and_append "hello world") "2024-05-01 10:00:00" = none :=
  c8_prefilter_rejects "hello world" "2024-05-01 10:00:00" (by decide)

/-- Claim C5: a text that passes the pre-filter but on which any of the four
required patterns has no match is dropped (the required-field loop returns
early), and no row reaches the sink. -/
theorem c5_missing_required_field_drops (text nowStr : String)
    (hpre : containsSub (lowerStr text).data "charter request".data = true)
    (hmiss : reSearch charterIdRe text = none ∨ reSearch nameRe text = none ∨
             reSearch phoneRe text = none ∨ reSearch pickUpRe text = none) :
    parse_and_append text = .dropped
    ∧ dispatchedRow (parse_and_append text) nowStr = none := by
  have hp : parse_and_append text = .dropped := by
    unfold parse_and_append
    rw [hpre]
    simp only [Bool.not_true, Bool.false_eq_true, if_false]
    cases h1 : reSearch charterIdRe text with
    | none => rfl
    | some v1 =>
      cases h2 : reSearch nameRe text with
      | none => rfl
      | some v2 =>
        cases h3 : reSearch phoneRe text with
        | none => rfl
        | some v3 =>
          cases h4 : reSearch pickUpRe text with
          | none => rfl
          | some v4 =>
            exfalso
            rcases hmiss with h | h | h | h <;> simp_all
  exact ⟨hp, by rw [hp]; rfl⟩

theorem c5_witness :
    parse_and_append "charter request Charter Id: 1 Name: J Pick up date: 2-2" = .dropped
    ∧ dispatchedRow
        (parse_and_append "charter request Charter Id: 1 Name: J Pick up date: 2-2")
        "now" = none :=
  c5_missing_required_field_drops "charter request Charter Id: 1 Name: J Pick up date: 2-2"
    "now" (by decide) (Or.inr (Or.inr (Or.inl (by decide))))

/-- Claim C6: on a text carrying the four required labels and no
"Return date" label, extraction succeeds with `return_date = ""`,
`first_name = "Jane"` (first whitespace token of the name) and
`last_name = "Doe"` (last token, since there are two). -/
theorem c6_example_extraction :
    parse_and_append c6text = .parsed
      { charter_id := "1234", name := "Jane Doe", phone := "555-1234",
        pick_up_date := "2024-05-01", return_date := "",
        first_name := "Jane", last_name := "Doe" } := by
  set_option maxRecDepth 1000000 in decide

/-- Claim C10 failing input: the name value `<mailto:a| >` survives the
strip (it is bracketed), the mailto rewrite turns it into the single space
`" "`, which is truthy for Python, so `name_parts = " ".split() == []` and
`name_parts[0]` raises IndexError: the background thread dies and no record
is assembled, although every required field matched. -/
theorem c10_crash_on_whitespace_name : parse_and_append c10text = .crashed := by
  set_option maxRecDepth 1000000 in decide

/-- Companion fact: when the processed name is exactly the empty string, the
guard `if data.get('name')` takes the falsy branch and extraction does
succeed with empty first and last names, as the claim describes — the crash
of `c10_crash_on_whitespace_name` needs a non-empty all-whitespace name. -/
theorem c10_empty_name_ok :
    parse_and_append
      "Charter request\nCharter Id: 9\nName: <mailto:a|>\nPhone: 555\nPick up date: 2024-05-01"
      = .parsed
      { charter_id := "9", name := "", phone := "555", pick_up_date := "2024-05-01",
        return_date := "", first_name := "", last_name := "" } := by
  set_option maxRecDepth 1000000 in decide

/-- Claim C7 counterexample: a link annotation whose target does not start
with `mailto:` is NOT rewritten — the extracted name keeps the full
`<http://a.com|John Smith>` annotation, link target included, instead of
the display text "John Smith". -/
theorem c7_counterexample :
    parse_and_append c7httpText = .parsed
      { charter_id := "7", name := "<http://a.com|John Smith>", phone := "555",
        pick_up_date := "2024-05-01", return_date := "",
        first_name := "<http://a.com|John", last_name := "Smith>" }
    ∧ ("<http://a.com|John Smith>" : String) ≠ "John Smith" := by
  constructor
  · set_option maxRecDepth 1000000 in decide
  · decide

/-! ## Engine lemmas -/

theorem takeWhile_length_le (p : Char → Bool) (l : List Char) :
    (l.takeWhile p).length ≤ l.length := by
  induction l with
  | nil => simp
  | cons a t ih =>
    by_cases h : p a <;> simp [List.takeWhile_cons, h]
    omega

theorem tryStarG_some (k : MK) (s : List Char) (n : Nat) (res : List Char × List Char)
    (h : tryStarG k s n = some res) : ∃ j, k (s.drop j) = some res := by
  induction n with
  | zero => exact ⟨0, h⟩
  | succ n ih =>
    unfold tryStarG at h
    cases hk : k (s.drop (n + 1)) with
    | some r => rw [hk] at h; exact ⟨n + 1, by rw [hk]; exact h⟩
    | none => rw [hk] at h; exact ih h

theorem tryPlusG_some (k : MK) (s : List Char) (n : Nat) (res : List Char × List Char)
    (h : tryPlusG k s n = some res) :
    ∃ j, 1 ≤ j ∧ j ≤ n ∧ k (s.drop j) = some res := by
  induction n with
  | zero => exact absurd h (by simp [tryPlusG])
  | succ n ih =>
    unfold tryPlusG at h
    cases hk : k (s.drop (n + 1)) with
    | some r =>
      rw [hk] at h
      exact ⟨n + 1, by omega, le_refl _, by rw [hk]; exact h⟩
    | none =>
      rw [hk] at h
      obtain ⟨j, h1, h2, h3⟩ := ih h
      exact ⟨j, h1, by omega, h3⟩

theorem tryUp_some (k : MK) (s : List Char) (rem i : Nat) (res : List Char × List Char)
    (h : tryUp k s i rem = some res) : ∃ j, k (s.drop j) = some res := by
  induction rem generalizing i with
  | zero => exact ⟨i, h⟩
  | succ rem ih =>
    unfold tryUp at h
    cases hk : k (s.drop i) with
    | some r => rw [hk] at h; exact ⟨i, by rw [hk]; exact h⟩
    | none => rw [hk] at h; exact ih (i + 1) h

/-- A pattern containing no group passes the continuation's answer through
unchanged. -/
theorem mtch_nogrp :
    ∀ (r : Re), hasGrp r = false → ∀ (s : List Char) (k : MK) (res : List Char × List Char),
      mtch r s k = some res → ∃ rest, k rest = some res := by
  intro r
  induction r with
  | eps => intro _ s k res h; exact ⟨s, h⟩
  | cls p =>
    intro _ s k res h
    cases s with
    | nil => exact absurd h (by simp [mtch])
    | cons c t =>
      rw [show mtch (.cls p) (c :: t) k = if p c then k t else none from rfl] at h
      by_cases hp : p c
      · rw [if_pos hp] at h; exact ⟨t, h⟩
      · rw [if_neg hp] at h; exact absurd h (by simp)
  | seq a b iha ihb =>
    intro hg s k res h
    simp only [hasGrp, Bool.or_eq_false_iff] at hg
    unfold mtch at h
    obtain ⟨r1, h1⟩ := iha hg.1 s _ res h
    exact ihb hg.2 r1 k res h1
  | opt a iha =>
    intro hg s k res h
    simp only [hasGrp] at hg
    unfold mtch at h
    cases hm : mtch a s k with
    | some r =>
      rw [hm] at h
      obtain ⟨rest, hr⟩ := iha hg s k r hm
      exact ⟨rest, by rw [hr]; exact h⟩
    | none => rw [hm] at h; exact ⟨s, h⟩
  | starG p =>
    intro _ s k res h
    unfold mtch at h
    obtain ⟨j, hj⟩ := tryStarG_some k s _ res h
    exact ⟨s.drop j, hj⟩
  | plusG p =>
    intro _ s k res h
    unfold mtch at h
    obtain ⟨j, _, _, hj⟩ := tryPlusG_some k s _ res h
    exact ⟨s.drop j, hj⟩
  | starL p =>
    intro _ s k res h
    unfold mtch at h
    obtain ⟨j, hj⟩ := tryUp_some k s _ 0 res h
    exact ⟨s.drop j, hj⟩
  | grp a iha =>
    intro hg
    exact absurd hg (by simp [hasGrp])

theorem take_all_of_le_takeWhile (p : Char → Bool) (l : List Char) (j : Nat)
    (hj : j ≤ (l.takeWhile p).length) : ∀ c ∈ l.take j, p c := by
  intro c hc
  apply List.mem_takeWhile_imp (p := p) (l := l)
  have heq : l.take j = (l.takeWhile p).take j := by
    conv_lhs => rw [← List.takeWhile_append_dropWhile (p := p) (l := l)]
    exact List.take_append_of_le_length hj
  rw [heq] at hc
  exact List.take_subset j _ hc

/-- A group around a greedy plus over a class captures a non-empty run of
characters of that class. -/
theorem mtch_grp_plus (p : Char → Bool) (s : List Char) (k : MK)
    (cap rest : List Char) (h : mtch (.grp (.plusG p)) s k = some (cap, rest)) :
    cap ≠ [] ∧ ∀ c ∈ cap, p c := by
  unfold mtch at h
  obtain ⟨j, hj1, hj2, hj3⟩ := tryPlusG_some _ s _ _ h
  simp only [Option.map_eq_some'] at hj3
  obtain ⟨pr, hpr, heq⟩ := hj3
  have hjlen : j ≤ s.length := le_trans hj2 (takeWhile_length_le p s)
  have hlen : s.length - (s.drop j).length = j := by
    rw [List.length_drop]; omega
  rw [hlen] at heq
  have hcap : cap = s.take j := by
    have := congrArg Prod.fst heq
    exact this.symm
  constructor
  · intro hnil
    rw [hcap] at hnil
    rcases List.take_eq_nil_iff.mp hnil with h0 | h0
    · omega
    · subst h0; simp at hjlen; omega
  · intro c hc
    rw [hcap] at hc
    exact take_all_of_le_takeWhile p s j hj2 c hc

theorem mtch_charterId_cap (s cap rest : List Char)
    (h : mtch charterIdRe s mK0 = some (cap, rest)) :
    cap ≠ [] ∧ ∀ c ∈ cap, c.isDigit := by
  have h2 : mtch charterIdPre s
      (fun r1 => mtch (.grp (.plusG Char.isDigit)) r1 mK0) = some (cap, rest) := h
  obtain ⟨r1, hr1⟩ := mtch_nogrp charterIdPre (by rfl) s _ _ h2
  exact mtch_grp_plus Char.isDigit r1 mK0 cap rest hr1

theorem searchAux_charterId (s : List Char) :
    ∀ (cap rest : List Char), searchAux charterIdRe s = some (cap, rest) →
      cap ≠ [] ∧ ∀ c ∈ cap, c.isDigit := by
  induction s with
  | nil =>
    intro cap rest h
    exact mtch_charterId_cap [] cap rest h
  | cons c t ih =>
    intro cap rest h
    unfold searchAux at h
    cases hm : mtch charterIdRe (c :: t) mK0 with
    | some pr =>
      rw [hm] at h
      obtain rfl := Option.some.inj h
      exact mtch_charterId_cap (c :: t) cap rest hm
    | none =>
      rw [hm] at h
      exact ih cap rest h

theorem reSearch_charterId_digits (text v : String)
    (h : reSearch charterIdRe text = some v) :
    v.data ≠ [] ∧ ∀ c ∈ v.data, c.isDigit := by
  unfold reSearch at h
  cases hs : searchAux charterIdRe text.data with
  | none => rw [hs] at h; exact absurd h (by simp)
  | some pr =>
    rw [hs] at h
    have h2 : (⟨pr.1⟩ : String) = v := by simpa using h
    subst h2
    exact searchAux_charterId text.data pr.1 pr.2 (by rw [hs])

theorem dropWhile_eq_self_of_all (p : Char → Bool) (l : List Char)
    (h : ∀ c ∈ l, p c = false) : l.dropWhile p = l := by
  cases l with
  | nil => rfl
  | cons c t =>
    rw [List.dropWhile_cons, if_neg (by simp [h c (List.mem_cons_self c t)])]

theorem stripL_of_no_ws (l : List Char) (h : ∀ c ∈ l, pyWs c = false) : stripL l = l := by
  unfold stripL
  rw [dropWhile_eq_self_of_all pyWs l h,
    dropWhile_eq_self_of_all pyWs l.reverse (fun c hc => h c (List.mem_reverse.mp hc))]
  exact List.reverse_reverse l

theorem isDigit_not_pyWs (c : Char) (h : c.isDigit = true) : pyWs c = false := by
  unfold pyWs
  by_contra hne
  simp only [Bool.not_eq_false, Bool.or_eq_true, beq_iff_eq] at hne
  rcases hne with ((((h1 | h1) | h1) | h1) | h1) | h1 <;>
    (subst h1; exact absurd h (by decide))

theorem pyStrip_digits (v : String) (h1 : v.data ≠ []) (h2 : ∀ c ∈ v.data, c.isDigit) :
    pyStrip v ≠ "" ∧ ∀ c ∈ (pyStrip v).data, c.isDigit := by
  have hs : stripL v.data = v.data :=
    stripL_of_no_ws _ (fun c hc => isDigit_not_pyWs c (h2 c hc))
  have hd : (pyStrip v).data = v.data := hs
  constructor
  · intro he
    rw [he] at hd
    exact h1 hd.symm
  · intro c hc
    rw [hd] at hc
    exact h2 c hc

/-- Claim C9: (1) every record produced by a successful extraction has a
non-empty all-digit `charter_id`; (2) every row handed to the sink comes
from a successful extraction and carries the record's `charter_id` in
column 1 (so no record lacking a charter id is ever dispatched);
(3) `return_date` may be the empty string in such a record. -/
theorem c9_charter_id_invariant :
    (∀ (text : String) (r : CharterData), parse_and_append text = .parsed r →
      r.charter_id ≠ "" ∧ ∀ c ∈ r.charter_id.data, c.isDigit)
    ∧ (∀ (res : ParseResult) (nowStr : String) (row : List String),
        dispatchedRow res nowStr = some row →
        ∃ d, res = .parsed d ∧ row.get? 1 = some d.charter_id)
    ∧ (∃ (text : String) (r : CharterData),
        parse_and_append text = .parsed r ∧ r.return_date = "") := by
  refine ⟨?_, ?_, ?_⟩
  · intro text r h
    unfold parse_and_append at h
    cases hpre : containsSub (lowerStr text).data "charter request".data with
    | false => rw [hpre] at h; exact absurd h (by simp)
    | true =>
      rw [hpre] at h
      simp only [Bool.not_true, Bool.false_eq_true, if_false] at h
      cases h1 : reSearch charterIdRe text with
      | none => rw [h1] at h; exact absurd h (by simp)
      | some cid0 =>
        simp only [h1] at h
        cases h2 : reSearch nameRe text with
        | none => rw [h2] at h; exact absurd h (by simp)
        | some name0 =>
          simp only [h2] at h
          cases h3 : reSearch phoneRe text with
          | none => rw [h3] at h; exact absurd h (by simp)
          | some phone0 =>
            simp only [h3] at h
            cases h4 : reSearch pickUpRe text with
            | none => rw [h4] at h; exact absurd h (by simp)
            | some pick0 =>
              simp only [h4] at h
              have hdig := reSearch_charterId_digits text cid0 h1
              obtain ⟨hne, hall⟩ := pyStrip_digits cid0 hdig.1 hdig.2
              cases h5 : reSearch returnRe text with
              | none =>
                simp only [h5] at h
                by_cases hn : (processName name0 == "") = true
                · rw [if_pos hn] at h
                  have hr := ParseResult.parsed.inj h
                  subst hr
                  exact ⟨hne, hall⟩
                · rw [if_neg hn] at h
                  cases hsp : pySplit (processName name0) with
                  | nil => rw [hsp] at h; exact absurd h (by simp)
                  | cons p ps =>
                    rw [hsp] at h
                    have hr := ParseResult.parsed.inj h
                    subst hr
                    exact ⟨hne, hall⟩
              | some r0 =>
                simp only [h5] at h
                by_cases hn : (processName name0 == "") = true
                · rw [if_pos hn] at h
                  have hr := ParseResult.parsed.inj h
                  subst hr
                  exact ⟨hne, hall⟩
                · rw [if_neg hn] at h
                  cases hsp : pySplit (processName name0) with
                  | nil => rw [hsp] at h; exact absurd h (by simp)
                  | cons p ps =>
                    rw [hsp] at h
                    have hr := ParseResult.parsed.inj h
                    subst hr
                    exact ⟨hne, hall⟩
  · intro res nowStr row h
    cases res with
    | parsed d =>
      refine ⟨d, rfl, ?_⟩
      obtain rfl := Option.some.inj h
      rfl
    | dropped => exact absurd h (by simp [dispatchedRow])
    | crashed => exact absurd h (by simp [dispatchedRow])
  · refine ⟨c9text,
      { charter_id := "0042", name := "Ann Lee", phone := "555", pick_up_date := "1-1",
        return_date := "", first_name := "Ann", last_name := "Lee" },
      by set_option maxRecDepth 1000000 in decide, rfl⟩

theorem c9_witness : ("0042" : String) ≠ "" :=
  (c9_charter_id_invariant.1 c9text
    { charter_id := "0042", name := "Ann Lee", phone := "555", pick_up_date := "1-1",
      return_date := "", first_name := "Ann", last_name := "Lee" }
    (by set_option maxRecDepth 1000000 in decide)).1

theorem mtch_seq (a b : Re) (s : List Char) (k : MK) :
    mtch (.seq a b) s k = mtch a s (fun r => mtch b r k) := rfl

theorem mtch_grp (a : Re) (s : List Char) (k : MK) :
    mtch (.grp a) s k =
      mtch a s (fun rest => (k rest).map (fun pr => (s.take (s.length - rest.length), pr.2))) := rfl

theorem mtch_cls_cons (p : Char → Bool) (c : Char) (t : List Char) (k : MK) :
    mtch (.cls p) (c :: t) k = if p c then k t else none := rfl

theorem head_mem_of_head? (l : List Char) (c : Char) (h : l.head? = some c) : c ∈ l := by
  cases l with
  | nil => exact absurd h (by simp)
  | cons a t =>
    obtain rfl := Option.some.inj h
    exact List.mem_cons_self a t

theorem mtch_cls_none (p : Char → Bool) (l : List Char) (k : MK)
    (h : ∀ c, l.head? = some c → p c = false) : mtch (.cls p) l k = none := by
  cases l with
  | nil => rfl
  | cons c t =>
    rw [mtch_cls_cons, if_neg]
    simp [h c rfl]

theorem mtch_litL (w rest : List Char) (k : MK) : mtch (litL w) (w ++ rest) k = k rest := by
  induction w with
  | nil => rfl
  | cons c ws ih =>
    show mtch (.seq (.cls (fun x => x == c)) (litL ws)) (c :: (ws ++ rest)) k = k rest
    rw [mtch_seq, mtch_cls_cons, if_pos (beq_self_eq_true c)]
    exact ih

theorem tryStarG_first_success (k : MK) (s : List Char) (j0 : Nat)
    (res : List Char × List Char) (hj0 : k (s.drop j0) = some res)
    (habove : ∀ j, j0 < j → k (s.drop j) = none) :
    ∀ n, j0 ≤ n → tryStarG k s n = some res := by
  intro n
  induction n with
  | zero =>
    intro h0
    have he : j0 = 0 := by omega
    subst he
    exact hj0
  | succ n ih =>
    intro hle
    unfold tryStarG
    by_cases he : j0 = n + 1
    · subst he; simp only [hj0]
    · have h1 : k (s.drop (n + 1)) = none := habove _ (by omega)
      simp only [h1]
      exact ih (by omega)

theorem tryUp_first_success (k : MK) (s : List Char) (j0 : Nat)
    (res : List Char × List Char) (hj0 : k (s.drop j0) = some res)
    (hbelow : ∀ j, j < j0 → k (s.drop j) = none) :
    ∀ rem i, i ≤ j0 → j0 ≤ i + rem → tryUp k s i rem = some res := by
  intro rem
  induction rem with
  | zero =>
    intro i h1 h2
    have he : i = j0 := by omega
    subst he
    exact hj0
  | succ rem ih =>
    intro i h1 h2
    unfold tryUp
    by_cases he : i = j0
    · subst he; simp only [hj0]
    · have h3 : k (s.drop i) = none := hbelow i (by omega)
      simp only [h3]
      exact ih (i + 1) (by omega) (by omega)

/-- The inner part of the mailto rewrite after the pipe: the lazy group
stops at the first `>`, capturing exactly the display text. -/
theorem mtch_mailto_after_pipe (d : List Char)
    (hd : ∀ c ∈ d, c ≠ '\n' ∧ c ≠ '|' ∧ c ≠ '>') :
    mtch (.seq (.grp (.starL nonNewline)) (.cls (fun c => c == '>')))
      (d ++ ['>']) mK0 = some (d, []) := by
  rw [mtch_seq, mtch_grp]
  show tryUp _ (d ++ ['>']) 0 ((d ++ ['>']).takeWhile nonNewline).length = some (d, [])
  have hrun : (d ++ ['>']).takeWhile nonNewline = d ++ ['>'] := by
    apply List.takeWhile_eq_self_iff.mpr
    intro c hc
    rcases List.mem_append.mp hc with h | h
    · simp [nonNewline, (hd c h).1]
    · simp only [List.mem_singleton] at h
      subst h
      decide
  rw [hrun]
  apply tryUp_first_success _ _ d.length
  · rw [List.drop_left]
    show (mtch (.cls (fun c => c == '>')) ['>'] mK0).map _ = some (d, [])
    rw [mtch_cls_cons, if_pos (beq_self_eq_true '>')]
    show some (((d ++ ['>']).take ((d ++ ['>']).length - 1), ([] : List Char))) = some (d, [])
    have hlen : (d ++ ['>']).length - 1 = d.length := by
      rw [List.length_append]
      simp
    rw [hlen, List.take_left]
  · intro j hj
    have hdrop : (d ++ ['>']).drop j = d.drop j ++ ['>'] :=
      List.drop_append_of_le_length (by omega)
    rw [hdrop]
    have hne : d.drop j ≠ [] := by
      intro hnil
      have := congrArg List.length hnil
      rw [List.length_drop] at this
      simp at this
      omega
    obtain ⟨c, l', hc⟩ := List.exists_cons_of_ne_nil hne
    rw [hc]
    show (mtch (.cls (fun x => x == '>')) (c :: (l' ++ ['>'])) mK0).map _ = none
    rw [mtch_cls_none]
    · rfl
    · intro c' hc'
      have hcc : c = c' := Option.some.inj hc'
      subst hcc
      have hcd : c ∈ d := List.drop_subset j d (hc ▸ List.mem_cons_self c l')
      exact beq_eq_false_iff_ne.mpr (hd c hcd).2.2
  · omega
  · rw [List.length_append]
    simp

theorem mtch_starG (p : Char → Bool) (s : List Char) (k : MK) :
    mtch (.starG p) s k = tryStarG k s (s.takeWhile p).length := rfl

/-- Matching the whole rewrite pattern against a full mailto annotation:
the greedy `.*` backtracks to the pipe, the lazy group captures exactly
the display text, and the whole annotation is consumed. -/
theorem mtch_mailto (t d : List Char)
    (ht : ∀ c ∈ t, c ≠ '\n' ∧ c ≠ '|')
    (hd : ∀ c ∈ d, c ≠ '\n' ∧ c ≠ '|' ∧ c ≠ '>') :
    mtch mailtoRe ("<mailto:".data ++ mailtoBody t d) mK0 = some (d, []) := by
  show mtch (litL "<mailto:".data) ("<mailto:".data ++ mailtoBody t d)
      (fun r => mtch mailtoTail r mK0) = some (d, [])
  rw [mtch_litL]
  show mtch (.starG nonNewline) (mailtoBody t d)
      (fun r => mtch (.seq (.cls (fun c => c == '|'))
        (.seq (.grp (.starL nonNewline)) (.cls (fun c => c == '>')))) r mK0) = some (d, [])
  rw [mtch_starG]
  have hrun : (mailtoBody t d).takeWhile nonNewline = mailtoBody t d := by
    apply List.takeWhile_eq_self_iff.mpr
    intro c hc
    unfold mailtoBody at hc
    rcases List.mem_append.mp hc with h | h
    · simp [nonNewline, (ht c h).1]
    · rcases List.mem_cons.mp h with rfl | h2
      · decide
      · rcases List.mem_append.mp h2 with h3 | h3
        · simp [nonNewline, (hd c h3).1]
        · simp only [List.mem_singleton] at h3; subst h3; decide
  rw [hrun]
  apply tryStarG_first_success _ _ t.length
  · have hdropt : (mailtoBody t d).drop t.length = '|' :: (d ++ ['>']) := by
      unfold mailtoBody
      exact List.drop_left t ('|' :: (d ++ ['>']))
    rw [hdropt]
    show mtch (.seq (.cls (fun c => c == '|'))
        (.seq (.grp (.starL nonNewline)) (.cls (fun c => c == '>'))))
        ('|' :: (d ++ ['>'])) mK0 = some (d, [])
    rw [mtch_seq, mtch_cls_cons, if_pos (beq_self_eq_true '|')]
    exact mtch_mailto_after_pipe d hd
  · intro j hj
    have heq : mailtoBody t d = (t ++ ['|']) ++ (d ++ ['>']) := by simp [mailtoBody]
    have hdropj : (mailtoBody t d).drop j = (d ++ ['>']).drop (j - (t.length + 1)) := by
      rw [heq]
      conv_lhs => rw [show j = (t ++ ['|']).length + (j - (t.length + 1)) from by
        simp [List.length_append]
        omega]
      exact List.drop_append (j - (t.length + 1))
    rw [hdropj]
    show mtch (.seq (.cls (fun c => c == '|'))
        (.seq (.grp (.starL nonNewline)) (.cls (fun c => c == '>'))))
        ((d ++ ['>']).drop (j - (t.length + 1))) mK0 = none
    rw [mtch_seq]
    apply mtch_cls_none
    intro c hc
    have hmem : c ∈ d ++ ['>'] := List.drop_subset _ _ (head_mem_of_head? _ c hc)
    rcases List.mem_append.mp hmem with h | h
    · exact beq_eq_false_iff_ne.mpr (hd c h).2.1
    · simp only [List.mem_singleton] at h; subst h; decide
  · unfold mailtoBody
    simp [List.length_append]

theorem subMailtoAux_nil (f : Nat) : subMailtoAux f [] = [] := by cases f <;> rfl

theorem subMailtoAux_cons (f : Nat) (c : Char) (tail : List Char) :
    subMailtoAux (f + 1) (c :: tail) =
      match mtch mailtoRe (c :: tail) mK0 with
      | some (cap, rest) => cap ++ subMailtoAux f rest
      | none => c :: subMailtoAux f tail := rfl

theorem stripL_eq_self_of_ends (l : List Char)
    (h1 : ∀ c, l.head? = some c → pyWs c = false)
    (h2 : ∀ c, l.getLast? = some c → pyWs c = false) : stripL l = l := by
  unfold stripL
  have hd1 : l.dropWhile pyWs = l := by
    cases l with
    | nil => rfl
    | cons c t => rw [List.dropWhile_cons, if_neg (by simp [h1 c rfl])]
  rw [hd1]
  have hd2 : l.reverse.dropWhile pyWs = l.reverse := by
    cases hr : l.reverse with
    | nil => rfl
    | cons c t =>
      have hlast : l.getLast? = some c := by
        rw [← List.head?_reverse, hr]
        rfl
      rw [List.dropWhile_cons, if_neg (by simp [h2 c hlast])]
  rw [hd2, List.reverse_reverse]

/-- The name-processing chain of `parse_and_append` on a value that is
exactly one mailto annotation: the strip is a no-op (the value is bracketed
by `<` and `>`) and the rewrite replaces the annotation by its display
text. -/
theorem processNameL_annotation (t d : List Char)
    (ht : ∀ c ∈ t, c ≠ '\n' ∧ c ≠ '|')
    (hd : ∀ c ∈ d, c ≠ '\n' ∧ c ≠ '|' ∧ c ≠ '>') :
    processNameL ("<mailto:".data ++ mailtoBody t d) = d := by
  have hstrip : stripL ("<mailto:".data ++ mailtoBody t d) =
      "<mailto:".data ++ mailtoBody t d := by
    apply stripL_eq_self_of_ends
    · intro c hc
      have hc2 : some '<' = some c := hc
      have : c = '<' := (Option.some.inj hc2).symm
      subst this
      decide
    · intro c hc
      have heq2 : "<mailto:".data ++ mailtoBody t d =
          ("<mailto:".data ++ (t ++ '|' :: d)) ++ ['>'] := by
        simp [mailtoBody]
      rw [heq2, List.getLast?_concat] at hc
      have : c = '>' := Option.some.inj hc.symm
      subst this
      decide
  unfold processNameL
  simp only [hstrip]
  show subMailtoAux ('<' :: ("mailto:".data ++ mailtoBody t d)).length
      ('<' :: ("mailto:".data ++ mailtoBody t d)) = d
  rw [show ('<' :: ("mailto:".data ++ mailtoBody t d)).length =
      ("mailto:".data ++ mailtoBody t d).length + 1 from rfl]
  rw [subMailtoAux_cons]
  have hm : mtch mailtoRe ('<' :: ("mailto:".data ++ mailtoBody t d)) mK0 = some (d, []) :=
    mtch_mailto t d ht hd
  simp only [hm, subMailtoAux_nil, List.append_nil]

/-- Claim C7 (amended): the rewrite applies to mailto-scheme link
annotations: for every link target `t` and display text `d` (free of
newline, `|` and `>`), the name-processing chain maps the annotation
`<mailto:t|d>` to exactly `d`; in particular the extraction of a message
whose name line is `Name: <mailto:a@b.com|John Smith>` stores the name
"John Smith". -/
theorem c7_amended :
    (∀ (t d : List Char), (∀ c ∈ t, c ≠ '\n' ∧ c ≠ '|') →
      (∀ c ∈ d, c ≠ '\n' ∧ c ≠ '|' ∧ c ≠ '>') →
      processNameL ("<mailto:".data ++ (t ++ '|' :: (d ++ ['>']))) = d)
    ∧ parse_and_append c7mailtoText = .parsed
      { charter_id := "7", name := "John Smith", phone := "555",
        pick_up_date := "2024-05-01", return_date := "",
        first_name := "John", last_name := "Smith" } := by
  constructor
  · exact fun t d ht hd => processNameL_annotation t d ht hd
  · set_option maxRecDepth 1000000 in decide

theorem c7_amended_witness :
    processNameL ("<mailto:".data ++ ("a@b.com".data ++ '|' :: ("John Smith".data ++ ['>'])))
      = "John Smith".data :=
  c7_amended.1 "a@b.com".data "John Smith".data (by decide) (by decide)
